import Mathlib

/-!
Verification of the image-augmentation layer in
`iNaturalist_resnet/tensorpack/dataflow/imgaug/misc.py`.

The file shallowly embeds the parameter-sampling and coordinate-transform
logic of the augmentors `Flip`, `ResizeShortestEdge`, `RandomResize` and
`Transpose`.  Python floats are modelled as exact rationals (so the literal
`1e-5` becomes `1/100000`), Python `int()` becomes truncation toward zero,
numpy uniform draws become explicit rational inputs in the unit interval
(`uniform(lo, hi) = lo + (hi - lo) * u`), raising becomes `Option`/`Bool`
results, and `logger.warn` becomes a boolean flag in the result.
-/

/-- Python `int(x)`: truncation toward zero on rationals. -/
def pyTrunc (x : ℚ) : ℤ := if 0 ≤ x then ⌊x⌋ else ⌈x⌉

/-- Embedding of `ImageAugmentor._rand_range(lo, hi)`, which draws `numpy.random.uniform(lo, hi)`;
with the unit draw `u ∈ [0,1)` made explicit this is `lo + (hi - lo) * u`. -/
def randRange (lo hi u : ℚ) : ℚ := lo + (hi - lo) * u

/-- A Python number together with its runtime type tag: `isFloat` records
whether `isinstance(x, float)` holds; `val` is its exact numeric value. -/
structure PyNum where
  isFloat : Bool
  val : ℚ
  deriving DecidableEq

/-- Embedding of `is_float(tp)` from `RandomResize.__init__`:
`isinstance(tp[0], float) or isinstance(tp[1], float)`. -/
def isFloatRange (tp : PyNum × PyNum) : Bool := tp.1.isFloat || tp.2.isFloat

/-- Modelled from the spec: the resize transform descriptor
(`ResizeTransform` of `tensorpack/dataflow/imgaug/transform.py`, whose file is
not part of this fragment).  It holds (source height, source width,
destination height, destination width, interpolation); the field names and
positional order follow the call sites `ResizeTransform(h, w, newh, neww,
interp)` in `misc.py`. -/
structure ResizeTransform where
  h : ℕ
  w : ℕ
  newh : ℤ
  neww : ℤ
  interp : ℕ
  deriving DecidableEq

/-- Configuration record of `RandomResize.__init__` (the fields stored by
`self._init(locals())`). -/
structure RRConfig where
  xrange : PyNum × PyNum
  yrange : Option (PyNum × PyNum)
  minimum : ℚ × ℚ
  aspect_ratio_thres : ℚ
  interp : ℕ
  deriving DecidableEq

/-- Field `self._is_scale = is_float(xrange)`. -/
def RRConfig.isScale (cfg : RRConfig) : Bool := isFloatRange cfg.xrange

/-- The construction-time checks of `RandomResize.__init__`:
`assert aspect_ratio_thres >= 0`; if `yrange is not None` then
`assert is_float(xrange) == is_float(yrange)`; and if
`aspect_ratio_thres == 0` in scale mode, `assert xrange == yrange or yrange
is None` (Python tuple equality compares the numeric values).  Returns
`false` exactly when some assert fires (an `AssertionError` is raised). -/
def RandomResize.initCheck (cfg : RRConfig) : Bool :=
  if cfg.aspect_ratio_thres < 0 then false
  else if (match cfg.yrange with
           | some yr => isFloatRange cfg.xrange != isFloatRange yr
           | none => false) then false
  else if cfg.aspect_ratio_thres = 0 then
    if cfg.isScale then
      match cfg.yrange with
      | some yr => decide (cfg.xrange.1.val = yr.1.val) &&
                   decide (cfg.xrange.2.val = yr.2.val)
      | none => true
    else true
  else true

/-- The inner `get_dest_size()` of `RandomResize._get_augment_params`, with
the two unit draws `u` (for `sx`) and `v` (for `sy`) made explicit.  In scale
mode `destX = max(sx*w, minimum[0])`, `destY = max(sy*h, minimum[1])`; in
pixel mode the draws are used directly.  When `aspect_ratio_thres == 0` the
`sy` draw is not consumed (`sy = sx`, resp. `sy = sx * 1.0 / w * h`); when it
is nonzero and `yrange is None`, `self._rand_range(*self.yrange)` raises a
`TypeError`, modelled by `none`. -/
def get_dest_size (cfg : RRConfig) (h w : ℕ) (u v : ℚ) : Option (ℤ × ℤ) :=
  if cfg.isScale then
    Option.map
      (fun sy =>
        (pyTrunc (max (randRange cfg.xrange.1.val cfg.xrange.2.val u * (w : ℚ))
            cfg.minimum.1 + 1/2),
         pyTrunc (max (sy * (h : ℚ)) cfg.minimum.2 + 1/2)))
      (if cfg.aspect_ratio_thres = 0 then
        some (randRange cfg.xrange.1.val cfg.xrange.2.val u)
       else Option.map (fun yr => randRange yr.1.val yr.2.val v) cfg.yrange)
  else
    Option.map
      (fun sy =>
        (pyTrunc (max (randRange cfg.xrange.1.val cfg.xrange.2.val u)
            cfg.minimum.1 + 1/2),
         pyTrunc (max sy cfg.minimum.2 + 1/2)))
      (if cfg.aspect_ratio_thres = 0 then
        some (randRange cfg.xrange.1.val cfg.xrange.2.val u / (w : ℚ) * (h : ℚ))
       else Option.map (fun yr => randRange yr.1.val yr.2.val v) cfg.yrange)

/-- Embedding of `diff = abs(newr - oldr) / oldr` with `oldr = w * 1.0 / h` and
`newr = destX * 1.0 / destY`, from `RandomResize._get_augment_params`. -/
def aspectDiff (h w : ℕ) (destX destY : ℤ) : ℚ :=
  |(destX : ℚ) / (destY : ℚ) - (w : ℚ) / (h : ℚ)| / ((w : ℚ) / (h : ℚ))

/-- The `while True` rejection loop of `RandomResize._get_augment_params`,
driven by the list of pending `(u, v)` unit-draw pairs; `cnt` is the failure
counter.  The result pairs the returned `ResizeTransform` with the
`logger.warn` flag (`true` exactly on the 50-attempt fallback path); `none`
models running out of supplied draws (the real loop draws forever) or the
`TypeError` of a missing `yrange`. -/
def sampleLoop (cfg : RRConfig) (h w : ℕ) : ℕ → List (ℚ × ℚ) → Option (ResizeTransform × Bool)
  | _, [] => none
  | cnt, d :: rest =>
    match get_dest_size cfg h w d.1 d.2 with
    | none => none
    | some (destX, destY) =>
      if 0 < cfg.aspect_ratio_thres then
        if cfg.aspect_ratio_thres + 1/100000 ≤ aspectDiff h w destX destY then
          if 50 < cnt + 1 then some (⟨h, w, (h : ℤ), (w : ℤ), cfg.interp⟩, true)
          else sampleLoop cfg h w (cnt + 1) rest
        else some (⟨h, w, destY, destX, cfg.interp⟩, false)
      else some (⟨h, w, destY, destX, cfg.interp⟩, false)

/-- Embedding of `RandomResize._get_augment_params`: run the rejection loop with the
failure counter starting at 0. -/
def RandomResize.getAugmentParams (cfg : RRConfig) (h w : ℕ)
    (draws : List (ℚ × ℚ)) : Option (ResizeTransform × Bool) :=
  sampleLoop cfg h w 0 draws

/-- A draw pair fails the aspect-ratio check: `get_dest_size` succeeds and
`diff >= aspect_ratio_thres + 1e-5`. -/
def rejects (cfg : RRConfig) (h w : ℕ) (u v : ℚ) : Bool :=
  match get_dest_size cfg h w u v with
  | none => false
  | some (destX, destY) =>
      decide (cfg.aspect_ratio_thres + 1/100000 ≤ aspectDiff h w destX destY)

/-- Every draw pair in the list fails the aspect-ratio check. -/
def rejectsAll (cfg : RRConfig) (h w : ℕ) (ds : List (ℚ × ℚ)) : Bool :=
  ds.all fun d => rejects cfg h w d.1 d.2

/-- Embedding of `ResizeShortestEdge._get_augment_params`:
`scale = size * 1.0 / min(h, w)`; if `h < w` then `(newh, neww) = (size,
int(scale * w + 0.5))` else `(newh, neww) = (int(scale * h + 0.5), size)`. -/
def ResizeShortestEdge.getAugmentParams (size h w : ℕ) (interp : ℕ) : ResizeTransform :=
  if h < w then
    ⟨h, w, (size : ℤ), pyTrunc ((size : ℚ) / (min h w : ℚ) * (w : ℚ) + 1/2), interp⟩
  else
    ⟨h, w, pyTrunc ((size : ℚ) / (min h w : ℚ) * (h : ℚ) + 1/2), (size : ℤ), interp⟩

/-- Embedding of `Flip.__init__`: raises (modelled `none`) when both or neither of
`horiz`/`vert` are set, otherwise stores `self.code` (1 for horizontal, 0 for
vertical). -/
def Flip.initCode (horiz vert : Bool) : Option ℕ :=
  if horiz && vert then none
  else if horiz then some 1
  else if vert then some 0
  else none

/-- Embedding of `Flip._augment_coords` on the parameter record `(do, h, w)`: when the
flip was decided, `code == 0` (vertical) sends `y` to `h - y` and `code == 1`
(horizontal) sends `x` to `w - x`; otherwise the coordinates are returned
unchanged. -/
def Flip.augmentCoords (code : ℕ) (doFlip : Bool) (h w : ℕ)
    (coords : List (ℚ × ℚ)) : List (ℚ × ℚ) :=
  if doFlip then
    if code = 0 then coords.map fun p => (p.1, (h : ℚ) - p.2)
    else if code = 1 then coords.map fun p => ((w : ℚ) - p.1, p.2)
    else coords
  else coords

/-- An image: height, width, and the pixel grid (a pixel may itself be a
channel vector, which transposition and flipping carry along unchanged). -/
structure Image (α : Type) where
  h : ℕ
  w : ℕ
  pix : ℕ → ℕ → α

/-- The external `cv2.transpose` primitive: swap the two spatial axes. -/
def cv2Transpose {α : Type} (im : Image α) : Image α :=
  ⟨im.w, im.h, fun i j => im.pix j i⟩

/-- Embedding of `Transpose._get_augment_params`: `self._rand_range() < self.prob` with
the unit draw `r` made explicit. -/
def Transpose.getAugmentParams (prob r : ℚ) : Bool := decide (r < prob)

/-- Embedding of `Transpose._augment`: transpose the image when the draw decided so. -/
def Transpose.augment {α : Type} (doIt : Bool) (im : Image α) : Image α :=
  if doIt then cv2Transpose im else im

/-- Embedding of `Transpose._augment_coords`: `coords[:, ::-1]` swaps each point's x and y
when the draw decided so. -/
def Transpose.augmentCoords (doIt : Bool) (coords : List (ℚ × ℚ)) : List (ℚ × ℚ) :=
  if doIt then coords.map fun p => (p.2, p.1) else coords

/-! ## Helper lemmas -/

lemma pyTrunc_natCast_add_half (n : ℕ) : pyTrunc ((n : ℚ) + 1/2) = n := by
  rw [pyTrunc, if_pos (by positivity), Int.floor_eq_iff]
  push_cast
  constructor <;> norm_num

/-! ## Claim theorems -/

/-- C5: `Flip.__init__` raises a configuration error exactly when `horiz` and
`vert` are both true or both false, and succeeds (storing a flip code) when
exactly one of them is true; the check happens at construction time. -/
theorem flip_init_exclusive (horiz vert : Bool) :
    Flip.initCode horiz vert = none ↔ horiz = vert := by
  cases horiz <;> cases vert <;> simp [Flip.initCode]

/-- C6: with the parameter record `(do, h, w)`, the vertical-flip augmentor
(`code = 0`, from `vert = true`) maps each point `(x, y)` to `(x, h - y)`,
the horizontal-flip augmentor (`code = 1`, from `horiz = true`) maps each
point `(x, y)` to `(w - x, y)`, and when `do` is false the coordinates are
returned unchanged. -/
theorem flip_coords_spec (h w : ℕ) (coords : List (ℚ × ℚ)) (code : ℕ) :
    Flip.initCode false true = some 0 ∧
    Flip.initCode true false = some 1 ∧
    Flip.augmentCoords 0 true h w coords = coords.map (fun p => (p.1, (h : ℚ) - p.2)) ∧
    Flip.augmentCoords 1 true h w coords = coords.map (fun p => ((w : ℚ) - p.1, p.2)) ∧
    Flip.augmentCoords code false h w coords = coords := by
  refine ⟨rfl, rfl, rfl, ?_, rfl⟩
  simp [Flip.augmentCoords]

/-- C7: for `Transpose` with `prob = 1`, the transpose is always decided,
`_augment` returns the image with its spatial axes swapped, `_augment_coords`
maps each `(x, y)` to `(y, x)`, and both transforms are involutions. -/
theorem transpose_prob_one_involution (α : Type) (im : Image α)
    (coords : List (ℚ × ℚ)) (r : ℚ) (_h0 : 0 ≤ r) (h1 : r < 1) :
    Transpose.getAugmentParams 1 r = true ∧
    Transpose.augment (Transpose.getAugmentParams 1 r) im =
      Image.mk im.w im.h (fun i j => im.pix j i) ∧
    Transpose.augmentCoords (Transpose.getAugmentParams 1 r) coords =
      coords.map (fun p => (p.2, p.1)) ∧
    Transpose.augment (Transpose.getAugmentParams 1 r)
      (Transpose.augment (Transpose.getAugmentParams 1 r) im) = im ∧
    Transpose.augmentCoords (Transpose.getAugmentParams 1 r)
      (Transpose.augmentCoords (Transpose.getAugmentParams 1 r) coords) = coords := by
  have hd : Transpose.getAugmentParams 1 r = true := by
    simp [Transpose.getAugmentParams]
    exact h1
  rw [hd]
  refine ⟨rfl, rfl, rfl, rfl, ?_⟩
  show ((coords.map fun p => (p.2, p.1)).map fun p => (p.2, p.1)) = coords
  rw [List.map_map]
  exact List.map_id coords

/-- Concrete image used by the C7 witness. -/
def testIm : Image ℚ := ⟨2, 3, fun i j => (i : ℚ) * 10 + (j : ℚ)⟩

/-- Concrete coordinates used by the C7 witness. -/
def testCoords : List (ℚ × ℚ) := [(1, 2), (3, 4)]

theorem transpose_prob_one_involution_witness :
    Transpose.augment (Transpose.getAugmentParams 1 (1/2)) testIm =
      Image.mk testIm.w testIm.h (fun i j => testIm.pix j i) ∧
    Transpose.augmentCoords (Transpose.getAugmentParams 1 (1/2)) testCoords =
      testCoords.map (fun p => (p.2, p.1)) ∧
    Transpose.augment (Transpose.getAugmentParams 1 (1/2))
      (Transpose.augment (Transpose.getAugmentParams 1 (1/2)) testIm) = testIm := by
  obtain ⟨-, h2, h3, h4, -⟩ :=
    transpose_prob_one_involution ℚ testIm testCoords (1/2) (by norm_num) (by norm_num)
  exact ⟨h2, h3, h4⟩

/-- C4: `ResizeShortestEdge` with target `size` maps an `h × w` image to a
destination in which the originally smaller dimension is exactly `size` and
the other dimension is `int(size / min(h,w) * d + 0.5)` for `d` the larger
dimension; the computation consumes no random draw. -/
theorem resizeShortestEdge_correct (size h w interp : ℕ) (hh : 0 < h) (hw : 0 < w) :
    (ResizeShortestEdge.getAugmentParams size h w interp).h = h ∧
    (ResizeShortestEdge.getAugmentParams size h w interp).w = w ∧
    (h ≤ w → (ResizeShortestEdge.getAugmentParams size h w interp).newh = (size : ℤ) ∧
      (ResizeShortestEdge.getAugmentParams size h w interp).neww =
        pyTrunc ((size : ℚ) / (min h w : ℚ) * (max h w : ℚ) + 1/2)) ∧
    (w ≤ h → (ResizeShortestEdge.getAugmentParams size h w interp).neww = (size : ℤ) ∧
      (ResizeShortestEdge.getAugmentParams size h w interp).newh =
        pyTrunc ((size : ℚ) / (min h w : ℚ) * (max h w : ℚ) + 1/2)) := by
  by_cases hlt : h < w
  · have hmax : max (h : ℚ) (w : ℚ) = (w : ℚ) :=
      max_eq_right (by exact_mod_cast hlt.le)
    rw [ResizeShortestEdge.getAugmentParams, if_pos hlt]
    exact ⟨rfl, rfl, fun _ => ⟨rfl, by rw [hmax]⟩,
      fun hwh => absurd (lt_of_lt_of_le hlt hwh) (lt_irrefl h)⟩
  · have hwh : w ≤ h := le_of_not_lt hlt
    have hmax : max (h : ℚ) (w : ℚ) = (h : ℚ) :=
      max_eq_left (by exact_mod_cast hwh)
    rw [ResizeShortestEdge.getAugmentParams, if_neg hlt]
    refine ⟨rfl, rfl, fun hhw => ?_, fun _ => ⟨rfl, by rw [hmax]⟩⟩
    have heq : h = w := le_antisymm hhw hwh
    subst heq
    have hne : (h : ℚ) ≠ 0 := Nat.cast_ne_zero.mpr hh.ne'
    have hs : (size : ℚ) / (min (h : ℚ) (h : ℚ)) * (h : ℚ) = (size : ℚ) := by
      rw [min_self]
      field_simp
    constructor
    · show pyTrunc ((size : ℚ) / (min (h : ℚ) (h : ℚ)) * (h : ℚ) + 1/2) = (size : ℤ)
      rw [hs, pyTrunc_natCast_add_half]
    · show (size : ℤ) = pyTrunc ((size : ℚ) / (min (h : ℚ) (h : ℚ)) * (max (h : ℚ) (h : ℚ)) + 1/2)
      rw [max_self, hs, pyTrunc_natCast_add_half]

theorem resizeShortestEdge_correct_witness :
    (ResizeShortestEdge.getAugmentParams 50 40 80 1).newh = 50 ∧
    (ResizeShortestEdge.getAugmentParams 50 40 80 1).neww = 100 := by
  obtain ⟨-, -, h3, -⟩ := resizeShortestEdge_correct 50 40 80 1 (by norm_num) (by norm_num)
  obtain ⟨ha, hb⟩ := h3 (by norm_num)
  refine ⟨ha, ?_⟩
  rw [hb]
  norm_num [pyTrunc]

/-- C3: constructing a `RandomResize` raises exactly when the threshold is
negative, or a provided `yrange` disagrees with `xrange` on scale-factor
(float) versus pixel-count (integer) mode, or `aspect_ratio_thres == 0` in
scale mode with a provided `yrange` not equal to `xrange`; all checks run in
`__init__`, before any sampling. -/
theorem randomResize_init_exact (x : PyNum × PyNum) (y : Option (PyNum × PyNum))
    (m : ℚ × ℚ) (t : ℚ) (i : ℕ) :
    RandomResize.initCheck ⟨x, y, m, t, i⟩ = false ↔
      (t < 0 ∨
       (∃ yr, y = some yr ∧ isFloatRange x ≠ isFloatRange yr) ∨
       (t = 0 ∧ isFloatRange x = true ∧
        ∃ yr, y = some yr ∧ ¬(x.1.val = yr.1.val ∧ x.2.val = yr.2.val))) := by
  cases y with
  | none =>
    simp only [RandomResize.initCheck, RRConfig.isScale]
    by_cases ht : t < 0
    · simp [ht]
    · by_cases ht0 : t = 0 <;> by_cases hs : isFloatRange x <;>
        simp [ht, ht0, hs]
  | some yr =>
    simp only [RandomResize.initCheck, RRConfig.isScale]
    by_cases ht : t < 0
    · simp [ht]
    · by_cases hm : isFloatRange x = isFloatRange yr
      · by_cases ht0 : t = 0
        · by_cases hs : isFloatRange x
          · by_cases he1 : x.1.val = yr.1.val <;> by_cases he2 : x.2.val = yr.2.val <;>
              simp [ht, hm, ht0, hs, he1, he2]
          · simp [ht, hm, ht0, hs]
        · simp [ht, hm, ht0]
      · simp [ht, hm]

lemma rejects_some (cfg : RRConfig) (h w : ℕ) (u v : ℚ)
    (hrej : rejects cfg h w u v = true) :
    ∃ destX destY, get_dest_size cfg h w u v = some (destX, destY) ∧
      cfg.aspect_ratio_thres + 1/100000 ≤ aspectDiff h w destX destY := by
  unfold rejects at hrej
  cases hg : get_dest_size cfg h w u v with
  | none => rw [hg] at hrej; simp at hrej
  | some p =>
    obtain ⟨destX, destY⟩ := p
    rw [hg] at hrej
    simp only [decide_eq_true_eq] at hrej
    exact ⟨destX, destY, rfl, hrej⟩

lemma sampleLoop_cons_reject (cfg : RRConfig) (h w cnt : ℕ) (d : ℚ × ℚ)
    (rest : List (ℚ × ℚ)) (hth : 0 < cfg.aspect_ratio_thres)
    (hrej : rejects cfg h w d.1 d.2 = true) :
    sampleLoop cfg h w cnt (d :: rest) =
      if 50 < cnt + 1 then some (⟨h, w, (h : ℤ), (w : ℤ), cfg.interp⟩, true)
      else sampleLoop cfg h w (cnt + 1) rest := by
  obtain ⟨destX, destY, hg, hge⟩ := rejects_some cfg h w d.1 d.2 hrej
  simp only [sampleLoop]
  rw [hg]
  simp only [if_pos hth, if_pos hge]

lemma sampleLoop_skip (cfg : RRConfig) (h w : ℕ)
    (hth : 0 < cfg.aspect_ratio_thres) :
    ∀ (ds : List (ℚ × ℚ)) (cnt : ℕ) (rest : List (ℚ × ℚ)),
      (∀ d ∈ ds, rejects cfg h w d.1 d.2 = true) → cnt + ds.length ≤ 50 →
      sampleLoop cfg h w cnt (ds ++ rest) = sampleLoop cfg h w (cnt + ds.length) rest := by
  intro ds
  induction ds with
  | nil => intro cnt rest _ _; simp
  | cons d ds ih =>
    intro cnt rest hrej hlen
    rw [List.cons_append,
      sampleLoop_cons_reject cfg h w cnt d (ds ++ rest) hth (hrej d (by simp))]
    rw [if_neg (by simp at hlen; omega)]
    rw [ih (cnt + 1) rest (fun x hx => hrej x (by simp [hx])) (by simp at hlen ⊢; omega)]
    congr 1
    simp
    omega

lemma sampleLoop_all_reject (cfg : RRConfig) (h w : ℕ)
    (hth : 0 < cfg.aspect_ratio_thres) :
    ∀ (ds : List (ℚ × ℚ)) (cnt : ℕ),
      (∀ d ∈ ds, rejects cfg h w d.1 d.2 = true) → cnt ≤ 50 → 51 ≤ cnt + ds.length →
      sampleLoop cfg h w cnt ds = some (⟨h, w, (h : ℤ), (w : ℤ), cfg.interp⟩, true) := by
  intro ds
  induction ds with
  | nil => intro cnt _ hc hl; exfalso; simp at hl; omega
  | cons d ds ih =>
    intro cnt hrej hc hl
    rw [sampleLoop_cons_reject cfg h w cnt d ds hth (hrej d (by simp))]
    by_cases hcnt : 50 < cnt + 1
    · rw [if_pos hcnt]
    · rw [if_neg hcnt]
      exact ih (cnt + 1) (fun x hx => hrej x (by simp [hx])) (by omega)
        (by simp at hl; omega)

lemma get_dest_size_minimum (cfg : RRConfig) (h w : ℕ) (u v : ℚ) (destX destY : ℤ)
    (hds : get_dest_size cfg h w u v = some (destX, destY)) :
    ∃ dX dY : ℚ, destX = pyTrunc (dX + 1/2) ∧ destY = pyTrunc (dY + 1/2) ∧
      cfg.minimum.1 ≤ dX ∧ cfg.minimum.2 ≤ dY := by
  rw [get_dest_size] at hds
  by_cases hsc : cfg.isScale = true
  · rw [if_pos hsc] at hds
    obtain ⟨sy, -, hfs⟩ := Option.map_eq_some'.mp hds
    rw [Prod.mk.injEq] at hfs
    exact ⟨_, _, hfs.1.symm, hfs.2.symm, le_max_right _ _, le_max_right _ _⟩
  · rw [if_neg hsc] at hds
    obtain ⟨sy, -, hfs⟩ := Option.map_eq_some'.mp hds
    rw [Prod.mk.injEq] at hfs
    exact ⟨_, _, hfs.1.symm, hfs.2.symm, le_max_right _ _, le_max_right _ _⟩

/-- Pixel-mode configuration `RandomResize(xrange=(1, 4), yrange=(1, 4),
minimum=(0, 0), aspect_ratio_thres=0.1)` on a 1×1 image, used to exhibit
concrete accepted and rejected draws. -/
def ceCfg : RRConfig :=
  ⟨(⟨false, 1⟩, ⟨false, 4⟩), some (⟨false, 1⟩, ⟨false, 4⟩), (0, 0), 1/10, 1⟩

lemma ceCfg_rejecting_draw : rejects ceCfg 1 1 (2/3) 0 = true := by
  have hg : get_dest_size ceCfg 1 1 (2/3) 0 = some (3, 1) := by
    rw [get_dest_size]
    norm_num [ceCfg, RRConfig.isScale, isFloatRange, randRange, pyTrunc]
  unfold rejects
  rw [hg]
  simp only [decide_eq_true_eq]
  rw [aspectDiff]
  norm_num [ceCfg]

lemma ceCfg_accepting_draw : get_dest_size ceCfg 1 1 (1/3) (1/3) = some (2, 2) := by
  rw [get_dest_size]
  norm_num [ceCfg, RRConfig.isScale, isFloatRange, randRange, pyTrunc]

/-- C1 counterexample: with `ceCfg` on a 1×1 image, the first 50 draws all
fail the aspect-ratio check — the sampler has reached 50 failed attempts —
yet it does not abandon randomization: the 51st draw is still sampled,
accepted, and returned as a genuine 2×2 resize with no warning. -/
theorem randomResize_fifty_failures_no_fallback :
    rejectsAll ceCfg 1 1 (List.replicate 50 (2/3, 0)) = true ∧
    RandomResize.getAugmentParams ceCfg 1 1
      (List.replicate 50 (2/3, 0) ++ [(1/3, 1/3)]) =
      some (⟨1, 1, 2, 2, 1⟩, false) := by
  have hth : (0 : ℚ) < ceCfg.aspect_ratio_thres := by norm_num [ceCfg]
  constructor
  · rw [rejectsAll, List.all_eq_true]
    intro d hd
    rw [List.eq_of_mem_replicate hd]
    exact ceCfg_rejecting_draw
  · rw [RandomResize.getAugmentParams,
      sampleLoop_skip ceCfg 1 1 hth (List.replicate 50 (2/3, 0)) 0 [(1/3, 1/3)]
        (fun d hd => by rw [List.eq_of_mem_replicate hd]; exact ceCfg_rejecting_draw)
        (by simp)]
    simp only [List.length_replicate, Nat.zero_add]
    simp only [sampleLoop]
    rw [ceCfg_accepting_draw]
    simp only [if_pos hth]
    rw [if_neg]
    · rfl
    · rw [aspectDiff]
      norm_num [ceCfg]

/-- C1 (amended): the rejection sampler abandons randomization only once the
failure counter exceeds 50, i.e. on the 51st failed attempt; it then logs a
warning and returns the identity-size transform from `(h, w)` to `(h, w)`,
and this path always returns normally (no exception). -/
theorem randomResize_fallback_after_51 (cfg : RRConfig) (h w : ℕ)
    (draws : List (ℚ × ℚ)) (hth : 0 < cfg.aspect_ratio_thres)
    (hrej : ∀ d ∈ draws, rejects cfg h w d.1 d.2 = true)
    (hlen : 51 ≤ draws.length) :
    RandomResize.getAugmentParams cfg h w draws =
      some (⟨h, w, (h : ℤ), (w : ℤ), cfg.interp⟩, true) :=
  sampleLoop_all_reject cfg h w hth draws 0 hrej (by omega) (by omega)

theorem randomResize_fallback_after_51_witness :
    RandomResize.getAugmentParams ceCfg 1 1 (List.replicate 51 (2/3, 0)) =
      some (⟨1, 1, 1, 1, 1⟩, true) := by
  have h51 := randomResize_fallback_after_51 ceCfg 1 1 (List.replicate 51 (2/3, 0))
    (by norm_num [ceCfg])
    (fun d hd => by rw [List.eq_of_mem_replicate hd]; exact ceCfg_rejecting_draw)
    (by simp)
  rw [h51]
  rfl

/-- C2: with `aspect_ratio_thres > 0`, a sampled candidate destination
`(destX, destY)` is accepted and returned as the transform's destination
exactly when `|destX/destY - w/h| / (w/h) < aspect_ratio_thres + 1e-5`;
otherwise it is discarded and the loop draws a fresh candidate (while the
attempt budget lasts). -/
theorem randomResize_accept_iff (cfg : RRConfig) (h w cnt : ℕ) (u v : ℚ)
    (rest : List (ℚ × ℚ)) (destX destY : ℤ)
    (hth : 0 < cfg.aspect_ratio_thres)
    (hds : get_dest_size cfg h w u v = some (destX, destY)) :
    (aspectDiff h w destX destY < cfg.aspect_ratio_thres + 1/100000 →
      sampleLoop cfg h w cnt ((u, v) :: rest) =
        some (⟨h, w, destY, destX, cfg.interp⟩, false)) ∧
    (¬ aspectDiff h w destX destY < cfg.aspect_ratio_thres + 1/100000 →
      cnt + 1 ≤ 50 →
      sampleLoop cfg h w cnt ((u, v) :: rest) = sampleLoop cfg h w (cnt + 1) rest) := by
  constructor
  · intro hacc
    simp only [sampleLoop]
    rw [hds]
    simp only [if_pos hth, if_neg (not_le.mpr hacc)]
  · intro hrej hcnt
    simp only [sampleLoop]
    rw [hds]
    simp only [if_pos hth, if_pos (not_lt.mp hrej)]
    rw [if_neg (by omega)]

theorem randomResize_accept_iff_witness :
    sampleLoop ceCfg 1 1 0 [(1/3, 1/3)] = some (⟨1, 1, 2, 2, 1⟩, false) := by
  obtain ⟨hacc, -⟩ := randomResize_accept_iff ceCfg 1 1 0 (1/3) (1/3) [] 2 2
    (by norm_num [ceCfg]) ceCfg_accepting_draw
  apply hacc
  norm_num [aspectDiff, ceCfg]

/-- Scale-mode configuration `RandomResize(xrange=(1.0, 1.0),
yrange=(1.0, 1.0), minimum=(0, 0), aspect_ratio_thres=0)`: the degenerate
unit scale range of C8. -/
def c8cfg : RRConfig :=
  ⟨(⟨true, 1⟩, ⟨true, 1⟩), some (⟨true, 1⟩, ⟨true, 1⟩), (0, 0), 0, 1⟩

/-- C8: the degenerate configuration `c8cfg` passes the constructor checks,
and on every image and every sampling call the returned destination size
equals the source size exactly. -/
theorem randomResize_unit_scale_identity (h w : ℕ) (d : ℚ × ℚ)
    (rest : List (ℚ × ℚ)) :
    RandomResize.initCheck c8cfg = true ∧
    RandomResize.getAugmentParams c8cfg h w (d :: rest) =
      some (⟨h, w, (h : ℤ), (w : ℤ), 1⟩, false) := by
  constructor
  · norm_num [RandomResize.initCheck, c8cfg, RRConfig.isScale, isFloatRange]
  · have hsx : randRange (1 : ℚ) 1 d.1 = 1 := by simp [randRange]
    have hds : get_dest_size c8cfg h w d.1 d.2 = some ((w : ℤ), (h : ℤ)) := by
      rw [get_dest_size]
      simp only [c8cfg, RRConfig.isScale, isFloatRange, Bool.true_or, if_true, if_pos rfl]
      rw [hsx]
      rw [Option.map_some']
      rw [one_mul, one_mul,
        max_eq_left (by positivity : (0 : ℚ) ≤ (w : ℚ)),
        max_eq_left (by positivity : (0 : ℚ) ≤ (h : ℚ)),
        pyTrunc_natCast_add_half, pyTrunc_natCast_add_half]
    rw [RandomResize.getAugmentParams]
    simp only [sampleLoop]
    rw [hds]
    norm_num [c8cfg]

/-- C9: a range tuple with at least one float endpoint puts `RandomResize`
in scale-factor mode, and in that mode the sampled `sx`/`sy` are multiplied
by the image dimensions (rather than used as absolute pixel counts): with
`xrange = (a, b)` and `yrange = (yr₁, yr₂)`, the candidate destination is
`(int(max(sx*w, min.x) + 0.5), int(max(sy*h, min.y) + 0.5))`. -/
theorem randomResize_mixed_range_scale (cfg : RRConfig) (a b : PyNum)
    (yr : PyNum × PyNum) (h w : ℕ) (u v : ℚ)
    (hx : cfg.xrange = (a, b)) (hy : cfg.yrange = some yr)
    (hf : (a.isFloat || b.isFloat) = true) (ht : ¬ cfg.aspect_ratio_thres = 0) :
    cfg.isScale = true ∧
    get_dest_size cfg h w u v =
      some (pyTrunc (max (randRange a.val b.val u * (w : ℚ)) cfg.minimum.1 + 1/2),
            pyTrunc (max (randRange yr.1.val yr.2.val v * (h : ℚ)) cfg.minimum.2 + 1/2)) := by
  have hsc : cfg.isScale = true := by rw [RRConfig.isScale, hx]; exact hf
  refine ⟨hsc, ?_⟩
  rw [get_dest_size, if_pos hsc, if_neg ht, hy, hx]
  rfl

/-- The mixed-endpoint configuration of C9:
`RandomResize(xrange=(100, 350.0), yrange=(0.5, 1.5),
aspect_ratio_thres=0.15)` — the integer 100 next to the float 350.0. -/
def mixedCfg : RRConfig :=
  ⟨(⟨false, 100⟩, ⟨true, 350⟩), some (⟨true, 1/2⟩, ⟨true, 3/2⟩), (0, 0), 3/20, 1⟩

theorem randomResize_mixed_range_scale_witness :
    RRConfig.isScale mixedCfg = true ∧
    get_dest_size mixedCfg 2 3 0 0 = some (300, 1) := by
  obtain ⟨h1, h2⟩ := randomResize_mixed_range_scale mixedCfg ⟨false, 100⟩ ⟨true, 350⟩
    (⟨true, 1/2⟩, ⟨true, 3/2⟩) 2 3 0 0 rfl rfl rfl (by norm_num [mixedCfg])
  refine ⟨h1, ?_⟩
  rw [h2]
  norm_num [mixedCfg, randRange, pyTrunc]

/-- C10: the attempt-budget fallback ignores the `minimum` floor — whenever
the loop returns with the warning flag set, the destination is exactly the
source `(h, w)` — while every normally sampled candidate destination is the
rounding of pre-rounding values that are at least `minimum.x` resp.
`minimum.y`. -/
theorem randomResize_minimum_floor (cfg : RRConfig) (h w cnt : ℕ)
    (draws : List (ℚ × ℚ)) (t : ResizeTransform) (u v : ℚ) (destX destY : ℤ)
    (hfb : sampleLoop cfg h w cnt draws = some (t, true))
    (hds : get_dest_size cfg h w u v = some (destX, destY)) :
    t = ⟨h, w, (h : ℤ), (w : ℤ), cfg.interp⟩ ∧
    ∃ dX dY : ℚ, destX = pyTrunc (dX + 1/2) ∧ destY = pyTrunc (dY + 1/2) ∧
      cfg.minimum.1 ≤ dX ∧ cfg.minimum.2 ≤ dY := by
  refine ⟨?_, get_dest_size_minimum cfg h w u v destX destY hds⟩
  clear hds
  induction draws generalizing cnt with
  | nil => simp [sampleLoop] at hfb
  | cons d rest ih =>
    simp only [sampleLoop] at hfb
    cases hg : get_dest_size cfg h w d.1 d.2 with
    | none => rw [hg] at hfb; simp at hfb
    | some p =>
      obtain ⟨dX, dY⟩ := p
      rw [hg] at hfb
      by_cases hth : 0 < cfg.aspect_ratio_thres
      · by_cases hr : cfg.aspect_ratio_thres + 1/100000 ≤ aspectDiff h w dX dY
        · by_cases hc : 50 < cnt + 1
          · simp only [if_pos hth, if_pos hr, if_pos hc, Option.some.injEq,
              Prod.mk.injEq] at hfb
            exact hfb.1.symm
          · simp only [if_pos hth, if_pos hr, if_neg hc] at hfb
            exact ih (cnt + 1) hfb
        · simp only [if_pos hth, if_neg hr] at hfb
          simp at hfb
      · simp only [if_neg hth] at hfb
        simp at hfb

/-- Configuration for the C10 witness: pixel mode with `minimum = (5, 5)`
larger than the 1×1 source image, and an aspect threshold the rejected draw
violates. -/
def minCfg : RRConfig :=
  ⟨(⟨false, 1⟩, ⟨false, 100⟩), some (⟨false, 1⟩, ⟨false, 100⟩), (5, 5), 1/10, 1⟩

theorem randomResize_minimum_floor_witness :
    (⟨1, 1, 1, 1, 1⟩ : ResizeTransform) =
      ⟨1, 1, (1 : ℤ), (1 : ℤ), minCfg.interp⟩ ∧
    ∃ dX dY : ℚ, (34 : ℤ) = pyTrunc (dX + 1/2) ∧ (5 : ℤ) = pyTrunc (dY + 1/2) ∧
      minCfg.minimum.1 ≤ dX ∧ minCfg.minimum.2 ≤ dY := by
  have hds : get_dest_size minCfg 1 1 (1/3) 0 = some (34, 5) := by
    rw [get_dest_size]
    norm_num [minCfg, RRConfig.isScale, isFloatRange, randRange, pyTrunc]
  have hfb : sampleLoop minCfg 1 1 50 [(1/3, 0)] = some (⟨1, 1, 1, 1, 1⟩, true) := by
    have h1 : (0 : ℚ) < minCfg.aspect_ratio_thres := by norm_num [minCfg]
    have h2 : minCfg.aspect_ratio_thres + 1/100000 ≤ aspectDiff 1 1 34 5 := by
      rw [aspectDiff]
      norm_num [minCfg]
      rw [abs_of_nonneg (by norm_num : (0 : ℚ) ≤ 29/5)]
      norm_num
    simp only [sampleLoop]
    rw [hds]
    simp only [if_pos h1, if_pos h2, if_pos (by norm_num : 50 < 50 + 1)]
    rfl
  exact randomResize_minimum_floor minCfg 1 1 50 [(1/3, 0)] ⟨1, 1, 1, 1, 1⟩
    (1/3) 0 34 5 hfb hds
